import Mathlib

/-!
Shallow embedding of the ingestion/reconciliation core of the
Inventory-Counter-Pro repository (React Native / TypeScript), covering:

* `uploadCSV` in `src/contexts/InventoryContext.tsx` (header resolution,
  row normalization, layered category matching, bulk upsert reconciliation),
* `getAdjustedItems` (snapshot differencing) in the same file,
* `updateItemNumber`, `deleteCategory`, `resetFloorCounts`,
  `resetStorageCounts` in the same file,
* `handleItemNumberChange` in `src/components/CategoryScreen.tsx`,
* `validateExcelColumns` and the column-index resolution of `parseExcelRow`
  in the export screen bundled in `src/types/inventory.ts`.

Strings are modelled as `List Char` (`Str`).  The JavaScript string
operations used by the code (`trim`, `toLowerCase`, `includes`, `split`,
`replace` with the specific regexes appearing in the source, `parseInt`,
`findIndex`, `find`) are each given a faithful executable model below.
-/

/-- Strings of the model: JavaScript strings as lists of characters. -/
abbrev Str := List Char

/-- Literal helper: a Lean string literal as a `Str`. -/
def str (s : String) : Str := s.data

/-- JavaScript whitespace class `\s` (ASCII part; the repository's data is
ASCII): space, tab, newline, carriage return, vertical tab, form feed. -/
def isWS (c : Char) : Bool :=
  c = ' ' || c = '\t' || c = '\n' || c = '\r' || c = '\x0b' || c = '\x0c'

/-- JavaScript `String.prototype.trim`: drop leading and trailing whitespace. -/
def jsTrim (s : Str) : Str :=
  ((s.dropWhile isWS).reverse.dropWhile isWS).reverse

/-- JavaScript `String.prototype.toLowerCase` (ASCII). -/
def jsLower (s : Str) : Str := s.map Char.toLower

/-- JavaScript `String.prototype.includes sub`: substring containment. -/
def jsIncludes (sub : Str) : Str → Bool
  | [] => sub.isEmpty
  | c :: cs => sub.isPrefixOf (c :: cs) || jsIncludes sub cs

/-- JavaScript `String.prototype.split(sep)` for a one-character separator; always
returns at least one (possibly empty) piece, like JavaScript. -/
def jsSplit (sep : Char) : Str → List Str
  | [] => [[]]
  | c :: cs =>
    let r := jsSplit sep cs
    if c = sep then [] :: r
    else
      match r with
      | [] => [[c]]
      | h :: t => (c :: h) :: t

/-- The regex replace `replace(/[\s\-_]/g, '')` and `replace(/[\s_-]/g, '')`: delete every
whitespace, hyphen and underscore character. -/
def stripSpecial (s : Str) : Str :=
  s.filter (fun c => !(isWS c || c = '-' || c = '_'))

/-- The regex replace `replace(/['"]/g, '')`: delete every single/double quote (used on
header cells). -/
def stripQuotesAll (s : Str) : Str :=
  s.filter (fun c => !(c = '\'' || c = '"'))

/-- The regex replace `replace(/^["']|["']$/g, '')`: drop one leading and one trailing
quote character (used on data cells). -/
def stripEdgeQuotes (s : Str) : Str :=
  let isQ : Char → Bool := fun c => c = '"' || c = '\''
  let s1 := match s with
    | [] => []
    | c :: cs => if isQ c then cs else c :: cs
  match s1.getLast? with
  | some c => if isQ c then s1.dropLast else s1
  | none => s1

/-- Helper for `wsRunsToHyphen`: the flag records whether we are inside a
whitespace run whose hyphen was already emitted. -/
def wsRunsToHyphenAux (inRun : Bool) : Str → Str
  | [] => []
  | c :: cs =>
    if isWS c then
      if inRun then wsRunsToHyphenAux true cs
      else '-' :: wsRunsToHyphenAux true cs
    else c :: wsRunsToHyphenAux false cs

/-- `replace` of the whitespace-run regex by a hyphen: each maximal
whitespace run becomes one hyphen. -/
def wsRunsToHyphen (s : Str) : Str := wsRunsToHyphenAux false s

/-- `replace` of the hyphen regex by a space: every hyphen becomes a
space. -/
def hyphenToSpace (s : Str) : Str :=
  s.map (fun c => if c = '-' then ' ' else c)

/-- Fuel-indexed worker for `removeAll`; each step consumes at least one
input character, so `s.length` fuel always suffices. -/
def removeAllFuel : Nat → Str → Str → Str
  | 0, _, s => s
  | _ + 1, _, [] => []
  | f + 1, pat, c :: cs =>
    if pat.isEmpty then c :: removeAllFuel f pat cs
    else if pat.isPrefixOf (c :: cs) then
      removeAllFuel f pat (cs.drop (pat.length - 1))
    else c :: removeAllFuel f pat cs

/-- The regex replace `replace(/pat/g, '')` for a literal pattern `pat`:
delete every (left-to-right, non-overlapping) occurrence. -/
def removeAll (pat s : Str) : Str := removeAllFuel s.length pat s

/-- The regex replace `replace(/s$/, '')`: drop a single trailing `'s'`. -/
def dropTrailingS (s : Str) : Str :=
  if s.getLast? = some 's' then s.dropLast else s

/-- Decimal digit test. -/
def isDigit10 (c : Char) : Bool := '0' ≤ c && c ≤ '9'

/-- Hexadecimal digit test. -/
def isHexDigit (c : Char) : Bool :=
  isDigit10 c || ('a' ≤ c && c ≤ 'f') || ('A' ≤ c && c ≤ 'F')

/-- Value of one hexadecimal digit. -/
def hexVal (c : Char) : Nat :=
  if isDigit10 c then c.toNat - '0'.toNat
  else if 'a' ≤ c && c ≤ 'f' then c.toNat - 'a'.toNat + 10
  else c.toNat - 'A'.toNat + 10

/-- Accumulate a digit list into a natural number with the given base. -/
def digitsToNat (base : Nat) (dval : Char → Nat) (ds : Str) : Nat :=
  ds.foldl (fun acc c => acc * base + dval c) 0

/-- JavaScript `parseInt(s)` (no radix argument): skip leading whitespace,
optional sign, `0x`/`0X` prefix selects base 16, otherwise base 10; the
longest digit prefix is parsed and the rest ignored; `none` models `NaN`. -/
def jsParseInt (s : Str) : Option Int :=
  let t := s.dropWhile isWS
  let signed : Int × Str :=
    match t with
    | '-' :: r => (-1, r)
    | '+' :: r => (1, r)
    | _ => (1, t)
  let sgn := signed.1
  let body := signed.2
  let core : Option Nat :=
    match body with
    | '0' :: x :: rest =>
      if x = 'x' || x = 'X' then
        let ds := rest.takeWhile isHexDigit
        if ds.isEmpty then none else some (digitsToNat 16 hexVal ds)
      else
        let ds := (('0' :: x :: rest).takeWhile isDigit10)
        if ds.isEmpty then none else some (digitsToNat 10 (fun c => c.toNat - '0'.toNat) ds)
    | _ =>
      let ds := body.takeWhile isDigit10
      if ds.isEmpty then none else some (digitsToNat 10 (fun c => c.toNat - '0'.toNat) ds)
  core.map (fun n => sgn * (n : Int))

/-- JavaScript `parseInt(s) || 0`: `NaN` (and `0`, `-0`) collapse to `0`. -/
def jsParseIntOr0 (s : Str) : Int :=
  (jsParseInt s).getD 0

/-- JavaScript `Array.prototype.findIndex` (as `Option Nat` instead of `-1`). -/
def jsFindIndex (p : α → Bool) : List α → Option Nat
  | [] => none
  | a :: as => if p a then some 0 else (jsFindIndex p as).map (· + 1)

/-- JavaScript `Array.prototype.find`. -/
def jsFind (p : α → Bool) : List α → Option α
  | [] => none
  | a :: as => if p a then some a else jsFind p as

/-- A `Nat` rendered in decimal, as a `Str` (for `${...}` interpolations). -/
def natStr (n : Nat) : Str := (Nat.repr n).data

/-- JavaScript `Array.prototype.join(sep)`. -/
def joinSep (sep : Str) : List Str → Str
  | [] => []
  | [x] => x
  | x :: y :: t => x ++ sep ++ joinSep sep (y :: t)

/-! ## Data model (`src/types/inventory.ts`)

Opaque timestamp fields (`createdAt`, `updatedAt`) are omitted: no modelled
operation reads them. -/

/-- An `ItemNumberEntry`: the canonical inventory record. -/
structure Entry where
  id : Str
  itemNumber : Str
  productName : Option Str
  floorCount : Int
  storageCount : Int
  totalCount : Int
  category : Str
deriving DecidableEq, Repr

/-- A `CategoryManagement` record. -/
structure Category where
  id : Str
  name : Str
  icon : Str
  color : Str
  isLocked : Bool
  isCustom : Bool
deriving DecidableEq, Repr

/-- An `InventoryItem` (the fields the modelled operations read). -/
structure Item where
  id : Str
  name : Str
  quantity : Int
  description : Option Str
  category : Str
deriving DecidableEq, Repr

/-- A `CSVUploadResult`. -/
structure CSVUploadResult where
  success : Bool
  message : Str
  processedCount : Nat
  errorCount : Nat
  errors : Option (List Str)
deriving DecidableEq, Repr

/-! ## Category matcher (`uploadCSV`, `src/contexts/InventoryContext.tsx`
lines 837–925)

The matcher receives `categoryStr`, the category cell already trimmed and
lower-cased by the row-processing step. -/

/-- Layer 3 predicate ("flexible name matching") exactly as in the source:
normalized name/id equality, plus the name with whitespace runs replaced by
hyphens, plus the id with hyphens replaced by spaces. -/
def flex3 (input : Str) (c : Category) : Bool :=
  let catName := jsLower c.name
  let catId := jsLower c.id
  stripSpecial catName == stripSpecial input ||
  stripSpecial catId == stripSpecial input ||
  wsRunsToHyphen catName == input ||
  hyphenToSpace catId == input

/-- Layer 4 predicate ("partial/contains matching"). -/
def partial4 (input : Str) (c : Category) : Bool :=
  let catName := jsLower c.name
  let catId := jsLower c.id
  jsIncludes input catName || jsIncludes catName input ||
  jsIncludes input catId || jsIncludes catId input

/-- The input variants of layer 5, in source order: strip a trailing `s`,
append `s`, remove `filter`, remove `oil`, remove `air`, remove `cabin`
(each removal trimmed). -/
def smartVariants (input : Str) : List Str :=
  [dropTrailingS input,
   input ++ str "s",
   jsTrim (removeAll (str "filter") input),
   jsTrim (removeAll (str "oil") input),
   jsTrim (removeAll (str "air") input),
   jsTrim (removeAll (str "cabin") input)]

/-- Layer 5 predicate ("smart matching for common variations"). -/
def smart5 (input : Str) (c : Category) : Bool :=
  let catName := jsLower c.name
  let catId := jsLower c.id
  (smartVariants input).any (fun v =>
    jsIncludes v catName || jsIncludes v catId ||
    jsIncludes catName v || jsIncludes catId v)

/-- The layered category matcher of `uploadCSV` (nested `find` fallbacks,
translated branch for branch). -/
def matchCategory (cats : List Category) (input : Str) : Option Str :=
  match jsFind (fun c => jsLower c.id == input) cats with
  | some c => some c.id
  | none =>
    match jsFind (fun c => jsLower c.name == input) cats with
    | some c => some c.id
    | none =>
      match jsFind (flex3 input) cats with
      | some c => some c.id
      | none =>
        match jsFind (partial4 input) cats with
        | some c => some c.id
        | none => (jsFind (smart5 input) cats).map (fun c => c.id)

/-- Layer 3 as the specification describes it: plain normalized
(whitespace/hyphen/underscore-stripped, lower-cased) equality against the
category's name or id. -/
def flex3Spec (input : Str) (c : Category) : Bool :=
  stripSpecial (jsLower c.name) == stripSpecial input ||
  stripSpecial (jsLower c.id) == stripSpecial input

/-- The category matcher as the specification's layered algorithm reads:
identical to `matchCategory` except that layer 3 is pure normalized
equality. -/
def matchCategorySpec (cats : List Category) (input : Str) : Option Str :=
  match jsFind (fun c => jsLower c.id == input) cats with
  | some c => some c.id
  | none =>
    match jsFind (fun c => jsLower c.name == input) cats with
    | some c => some c.id
    | none =>
      match jsFind (flex3Spec input) cats with
      | some c => some c.id
      | none =>
        match jsFind (partial4 input) cats with
        | some c => some c.id
        | none => (jsFind (smart5 input) cats).map (fun c => c.id)

/-! ## Header-to-index resolution (`uploadCSV` lines 666–777) -/

/-- Flexible matching predicate for the `ProductName` role (applied to a
header cell; the source lower-cases the header in each test). -/
def flexPN (h : Str) : Bool :=
  let l := jsLower h
  (jsIncludes (str "product") l && jsIncludes (str "name") l) ||
  jsIncludes (str "productname") l ||
  jsIncludes (str "name") l ||
  jsIncludes (str "product_name") l ||
  jsIncludes (str "description") l

/-- Flexible matching predicate for the `itemNumber` role. -/
def flexItem (h : Str) : Bool :=
  let l := jsLower h
  (jsIncludes (str "item") l && jsIncludes (str "number") l) ||
  jsIncludes (str "itemnumber") l ||
  (jsIncludes (str "product") l && jsIncludes (str "code") l) ||
  jsIncludes (str "productcode") l ||
  jsIncludes (str "sku") l ||
  l == str "item" ||
  l == str "code" ||
  (jsIncludes (str "part") l && jsIncludes (str "number") l) ||
  jsIncludes (str "partnumber") l

/-- Flexible matching predicate for the `FloorCount` role. -/
def flexFloor (h : Str) : Bool :=
  let l := jsLower h
  jsIncludes (str "floor") l ||
  jsIncludes (str "floorcount") l ||
  jsIncludes (str "floor_count") l ||
  jsIncludes (str "floor count") l

/-- Flexible matching predicate for the `StorageCount` role. -/
def flexStorage (h : Str) : Bool :=
  let l := jsLower h
  jsIncludes (str "storage") l ||
  jsIncludes (str "storagecount") l ||
  jsIncludes (str "storage_count") l ||
  jsIncludes (str "storage count") l ||
  jsIncludes (str "warehouse") l ||
  jsIncludes (str "stock") l

/-- Flexible matching predicate for the `Category` role. -/
def flexCat (h : Str) : Bool :=
  let l := jsLower h
  jsIncludes (str "category") l ||
  jsIncludes (str "type") l ||
  jsIncludes (str "group") l ||
  jsIncludes (str "section") l

/-- The five resolved column indices (`-1` becomes `none`). -/
structure ColumnIndices where
  pn : Option Nat
  item : Option Nat
  floor : Option Nat
  storage : Option Nat
  cat : Option Nat
deriving DecidableEq, Repr

/-- Exact default-header match first, then the flexible fallback — per role,
exactly as in `uploadCSV`. -/
def resolveHeaderIndices (headers : List Str) : ColumnIndices where
  pn := match jsFindIndex (fun h => h == str "ProductName") headers with
    | some i => some i
    | none => jsFindIndex flexPN headers
  item := match jsFindIndex (fun h => h == str "itemNumber") headers with
    | some i => some i
    | none => jsFindIndex flexItem headers
  floor := match jsFindIndex (fun h => h == str "FloorCount") headers with
    | some i => some i
    | none => jsFindIndex flexFloor headers
  storage := match jsFindIndex (fun h => h == str "StorageCount") headers with
    | some i => some i
    | none => jsFindIndex flexStorage headers
  cat := match jsFindIndex (fun h => h == str "Category") headers with
    | some i => some i
    | none => jsFindIndex flexCat headers

/-- The list of missing required role names, in the order `uploadCSV`
pushes them. -/
def missingRoles (ci : ColumnIndices) : List Str :=
  (if ci.item.isNone then [str "itemNumber"] else []) ++
  (if ci.floor.isNone then [str "FloorCount"] else []) ++
  (if ci.storage.isNone then [str "StorageCount"] else []) ++
  (if ci.cat.isNone then [str "Category"] else [])

/-! ## Row processing (`uploadCSV` lines 803–958) -/

/-- Outcome of one data row: a produced entry or a row-error message. -/
inductive RowOutcome where
  | ok (e : Entry)
  | err (msg : Str)
deriving DecidableEq, Repr

/-- The cells of one (already trimmed) data line: split on commas, each
cell trimmed and stripped of one surrounding quote pair. -/
def rowCells (line : Str) : List Str :=
  (jsSplit ',' line).map (fun v => stripEdgeQuotes (jsTrim v))

/-- The "Available: ..." list in the category row error. -/
def availableStr (cats : List Category) : Str :=
  joinSep (str ", ")
    (cats.map (fun c => str "\"" ++ c.name ++ str "\" (" ++ c.id ++ str ")"))

/-- The unrecognized-category row error (`i` is the 0-based line index;
the message shows the 1-based row number `i + 1`). -/
def catErrMsg (i : Nat) (categoryStr : Str) (cats : List Category) : Str :=
  str "Row " ++ natStr (i + 1) ++ str ": Could not match category \"" ++
  categoryStr ++ str "\" to any available category. Available: " ++
  availableStr cats

/-- One data row of `uploadCSV`, translated guard for guard.  `mkId`
models the `Date.now()`/`Math.random()` id generator as a function of the
line index; `none` is the dead skip branch for blank lines. -/
def processRow (cats : List Category) (mkId : Nat → Str) (hdrCount : Nat)
    (pn : Option Nat) (ii fi si cci : Nat) (i : Nat) (rawLine : Str) :
    Option RowOutcome :=
  let line := jsTrim rawLine
  if line.isEmpty then none
  else some (
    let values := rowCells line
    let pnIdx : Int := match pn with | some k => (k : Int) | none => -1
    let maxIdx : Int :=
      max (max (ii : Int) (fi : Int)) (max (max (si : Int) (cci : Int)) pnIdx)
    if (values.length : Int) < maxIdx + 1 then
      RowOutcome.err (str "Row " ++ natStr (i + 1) ++
        str ": Insufficient columns (expected " ++ natStr hdrCount ++
        str ", got " ++ natStr values.length ++ str ")")
    else
      let productName := match pn with
        | some k => jsTrim (values.getD k [])
        | none => []
      let itemNumber := jsTrim (values.getD ii [])
      let floorCountStr := jsTrim (values.getD fi [])
      let storageCountStr := jsTrim (values.getD si [])
      let categoryStr := jsLower (jsTrim (values.getD cci []))
      if itemNumber.isEmpty then
        RowOutcome.err (str "Row " ++ natStr (i + 1) ++ str ": Missing item number")
      else
        let floorCount := jsParseIntOr0 floorCountStr
        let storageCount := jsParseIntOr0 storageCountStr
        match matchCategory cats categoryStr with
        | none => RowOutcome.err (catErrMsg i categoryStr cats)
        | some cid =>
          RowOutcome.ok
            { id := mkId i, itemNumber := itemNumber,
              productName := if productName.isEmpty then none else some productName,
              floorCount := floorCount, storageCount := storageCount,
              totalCount := floorCount + storageCount, category := cid })

/-- Accumulated output of the row loop. -/
structure RowsResult where
  entries : List Entry
  errors : List Str
  processed : Nat
  errCount : Nat
deriving DecidableEq, Repr

/-- The row loop of `uploadCSV`: rows processed in order, entries and
errors accumulated, a failing row skipped and processing continued. -/
def processRows (cats : List Category) (mkId : Nat → Str) (hdrCount : Nat)
    (pn : Option Nat) (ii fi si cci : Nat) : Nat → List Str → RowsResult
  | _, [] => ⟨[], [], 0, 0⟩
  | i, l :: ls =>
    let rest := processRows cats mkId hdrCount pn ii fi si cci (i + 1) ls
    match processRow cats mkId hdrCount pn ii fi si cci i l with
    | none => rest
    | some (RowOutcome.ok e) =>
      ⟨e :: rest.entries, rest.errors, rest.processed + 1, rest.errCount⟩
    | some (RowOutcome.err m) =>
      ⟨rest.entries, m :: rest.errors, rest.processed, rest.errCount + 1⟩

/-! ## Bulk upsert reconciliation (`uploadCSV` lines 960–993) -/

/-- The upsert key: the lower-cased item number. -/
def keyOf (e : Entry) : Str := jsLower e.itemNumber

/-- One reconciliation step: replace the first case-insensitive
`itemNumber` match in place, else append; counters are
`(newItemsCount, updatedItemsCount)`. -/
def upsertStep (acc : List Entry × Nat × Nat) (e : Entry) :
    List Entry × Nat × Nat :=
  match jsFindIndex (fun x => keyOf x == keyOf e) acc.1 with
  | some idx => (acc.1.set idx e, acc.2.1, acc.2.2 + 1)
  | none => (acc.1 ++ [e], acc.2.1 + 1, acc.2.2)

/-- Bulk upsert reconciliation: the incoming batch folded over the current
entry list in order. -/
def reconcile (existing incoming : List Entry) : List Entry × Nat × Nat :=
  incoming.foldl upsertStep (existing, 0, 0)

/-! ## `uploadCSV` top level -/

/-- The non-blank lines of the file (split on newlines, blank-after-trim
lines dropped). -/
def jsLines (csvData : Str) : List Str :=
  (jsSplit '\n' csvData).filter (fun l => !(jsTrim l).isEmpty)

/-- The parsed header cells (trimmed, all quote characters removed). -/
def parseHeaders (hdrLine : Str) : List Str :=
  (jsSplit ',' hdrLine).map (fun h => stripQuotesAll (jsTrim h))

/-- The missing-required-columns failure result. -/
def missingColsResult (missing : List Str) (headers : List Str) :
    CSVUploadResult :=
  { success := false
    message := str "Missing required columns: " ++ joinSep (str ", ") missing
    processedCount := 0
    errorCount := 1
    errors := some
      [str "Missing columns: " ++ joinSep (str ", ") missing ++ str ".",
       str "Expected default headers: ProductName, itemNumber, FloorCount, StorageCount, Category",
       str "Found headers: " ++ joinSep (str ", ") headers] }

/-- The final summary message of `uploadCSV`. -/
def resultMessage (processed nw up ec : Nat) : Str :=
  if 0 < processed then
    str "Successfully processed " ++ natStr processed ++ str " items (" ++
    natStr nw ++ str " new, " ++ natStr up ++ str " updated)" ++
    (if 0 < ec then str " with " ++ natStr ec ++ str " errors" else [])
  else
    str "No items were processed" ++
    (if 0 < ec then str " (" ++ natStr ec ++ str " errors)" else [])

/-- The data-row phase of `uploadCSV`: process every data line, reconcile
the produced entries into the current list (only when some entry was
produced, as in the source), and assemble the result. -/
def rowPhase (cats : List Category) (mkId : Nat → Str)
    (existing : List Entry) (hdrCount : Nat) (pn : Option Nat)
    (ii fi si cci : Nat) (dataLines : List Str) :
    CSVUploadResult × List Entry :=
  let rr := processRows cats mkId hdrCount pn ii fi si cci 1 dataLines
  let rec3 := if rr.entries.isEmpty then (existing, 0, 0)
              else reconcile existing rr.entries
  ({ success := decide (0 < rr.processed)
     message := resultMessage rr.processed rec3.2.1 rec3.2.2 rr.errCount
     processedCount := rr.processed
     errorCount := rr.errCount
     errors := if rr.errors.isEmpty then none else some rr.errors },
   rec3.1)

/-- The header-validation phase of `uploadCSV`: all four required roles
resolved hands over to the row phase, anything else aborts with the
missing-columns result. -/
def headerPhase (mkId : Nat → Str) (cats : List Category)
    (existing : List Entry) (hdrLine : Str) (dataLines : List Str) :
    CSVUploadResult × List Entry :=
  match (resolveHeaderIndices (parseHeaders hdrLine)).item,
        (resolveHeaderIndices (parseHeaders hdrLine)).floor,
        (resolveHeaderIndices (parseHeaders hdrLine)).storage,
        (resolveHeaderIndices (parseHeaders hdrLine)).cat with
  | some ii, some fi, some si, some cci =>
    rowPhase cats mkId existing (parseHeaders hdrLine).length
      (resolveHeaderIndices (parseHeaders hdrLine)).pn ii fi si cci dataLines
  | _, _, _, _ =>
    (missingColsResult (missingRoles (resolveHeaderIndices (parseHeaders hdrLine)))
       (parseHeaders hdrLine), existing)

/-- The `uploadCSV` method: empty-input guards, header resolution,
required-column validation, row processing, reconciliation.  Returns the
result object and the new `itemNumbers` state. -/
def uploadCSV (mkId : Nat → Str) (cats : List Category)
    (existing : List Entry) (csvData : Str) : CSVUploadResult × List Entry :=
  if (jsTrim csvData).isEmpty then
    ({ success := false, message := str "File is empty or could not be read",
       processedCount := 0, errorCount := 1,
       errors := some [str "File contains no data or could not be read"] },
     existing)
  else
    match jsLines csvData with
    | [] =>
      ({ success := false, message := str "File is empty",
         processedCount := 0, errorCount := 1,
         errors := some [str "File contains no data"] }, existing)
    | hdrLine :: dataLines => headerPhase mkId cats existing hdrLine dataLines

/-! ## Snapshot differencing (`getAdjustedItems`, lines 222–256) -/

/-- Whether a current entry counts as changed against the snapshot: no
exact-`itemNumber` match, or the first matching snapshot entry differs in
`floorCount`, `storageCount` or `productName`. -/
def entryChanged (exportSnapshot : List Entry) (cur : Entry) : Bool :=
  match jsFind (fun s => s.itemNumber == cur.itemNumber) exportSnapshot with
  | none => true
  | some s =>
    decide (cur.floorCount ≠ s.floorCount) ||
    decide (cur.storageCount ≠ s.storageCount) ||
    decide (cur.productName ≠ s.productName)

/-- Snapshot differencing: with an empty snapshot everything is returned;
otherwise the changed entries are pushed in input order. -/
def getAdjustedItems (itemNumbers exportSnapshot : List Entry) : List Entry :=
  if exportSnapshot.length = 0 then itemNumbers
  else
    itemNumbers.foldl
      (fun acc cur => if entryChanged exportSnapshot cur then acc ++ [cur] else acc)
      []

/-! ## Entry update paths -/

/-- A `Partial ItemNumberEntry` object: a present field overrides, an
absent one is kept (`productName`'s inner `Option` is the field's own
optionality). -/
structure EntryUpdates where
  id : Option Str := none
  itemNumber : Option Str := none
  productName : Option (Option Str) := none
  floorCount : Option Int := none
  storageCount : Option Int := none
  totalCount : Option Int := none
  category : Option Str := none
deriving DecidableEq, Repr

/-- The object spread `\x7b ...itemNumber, ...updates \x7d`. -/
def applyUpdates (e : Entry) (u : EntryUpdates) : Entry :=
  { id := u.id.getD e.id
    itemNumber := u.itemNumber.getD e.itemNumber
    productName := u.productName.getD e.productName
    floorCount := u.floorCount.getD e.floorCount
    storageCount := u.storageCount.getD e.storageCount
    totalCount := u.totalCount.getD e.totalCount
    category := u.category.getD e.category }

/-- The `updateItemNumber` method (lines 471–480): the updates object is
spread over the matching entry verbatim. -/
def updateItemNumber (itemNumbers : List Entry) (uid : Str)
    (updates : EntryUpdates) : List Entry :=
  itemNumbers.map (fun it => if it.id == uid then applyUpdates it updates else it)

/-- A field edit of `handleItemNumberChange` as its call sites in
`CategoryScreen.tsx` produce it (count fields already passed through
`parseInt(text) || 0`). -/
inductive FieldEdit where
  | itemNumber (v : Str)
  | productName (v : Str)
  | floorCount (v : Int)
  | storageCount (v : Int)
deriving DecidableEq, Repr

/-- The per-field update of `handleItemNumberChange` (lines 141–156):
set the field, then recompute `totalCount` when the field was
`floorCount` or `storageCount`. -/
def applyFieldEdit (it : Entry) (f : FieldEdit) : Entry :=
  match f with
  | FieldEdit.itemNumber v => { it with itemNumber := v }
  | FieldEdit.productName v => { it with productName := some v }
  | FieldEdit.floorCount v =>
    let u := { it with floorCount := v }
    { u with totalCount := u.floorCount + u.storageCount }
  | FieldEdit.storageCount v =>
    let u := { it with storageCount := v }
    { u with totalCount := u.floorCount + u.storageCount }

/-- The `handleItemNumberChange` state update. -/
def handleItemNumberChange (items : List Entry) (uid : Str) (f : FieldEdit) :
    List Entry :=
  items.map (fun it => if it.id == uid then applyFieldEdit it f else it)

/-! ## Category deletion (`deleteCategory`, lines 554–621) -/

/-- The `deleteCategory` method on the three state lists: a missing or
non-custom category changes nothing; a custom one is removed together with
every item and entry referencing it. -/
def deleteCategory (cats : List Category) (items : List Item)
    (itemNumbers : List Entry) (cid : Str) :
    List Category × List Item × List Entry :=
  match jsFind (fun c => c.id == cid) cats with
  | none => (cats, items, itemNumbers)
  | some c =>
    if !c.isCustom then (cats, items, itemNumbers)
    else
      (cats.filter (fun c2 => !(c2.id == cid)),
       items.filter (fun it => !(it.category == cid)),
       itemNumbers.filter (fun e => !(e.category == cid)))

/-! ## Count resets (lines 1077–1159) -/

/-- The `resetFloorCounts` state update (the empty-list early return kept
from the source). -/
def resetFloorCounts (itemNumbers : List Entry) : List Entry :=
  if itemNumbers.length = 0 then itemNumbers
  else itemNumbers.map (fun it =>
    { it with floorCount := 0, totalCount := 0 + it.storageCount })

/-- The `resetStorageCounts` state update. -/
def resetStorageCounts (itemNumbers : List Entry) : List Entry :=
  if itemNumbers.length = 0 then itemNumbers
  else itemNumbers.map (fun it =>
    { it with storageCount := 0, totalCount := it.floorCount + 0 })

/-! ## Export-screen header validation (`validateExcelColumns` and the
index resolution of `parseExcelRow`, bundled in `src/types/inventory.ts`) -/

/-- Header normalization of the export screen: lower-case, then strip
whitespace/underscore/hyphen. -/
def normHdr (h : Str) : Str := stripSpecial (jsLower h)

/-- Whether a header matches any candidate pattern by normalized
substring containment (`parseExcelRow`'s `findIndex` predicate). -/
def hdrMatchesPats (pats : List Str) (h : Str) : Bool :=
  pats.any (fun p => jsIncludes (normHdr p) (normHdr h))

/-- The `findIndex` helper of `parseExcelRow`: first header whose
normalized form contains a candidate substring. -/
def findIndexByPats (headers pats : List Str) : Option Nat :=
  jsFindIndex (hdrMatchesPats pats) headers

/-- Candidate substrings of `parseExcelRow`, per role. -/
def itemNumberPats : List Str := [str "itemnumber", str "item", str "sku", str "code"]

/-- Candidates for the product-name role. -/
def productNamePats : List Str := [str "productname", str "product", str "name", str "description"]

/-- Candidates for the floor-count role. -/
def floorCountPats : List Str := [str "floorcount", str "floor"]

/-- Candidates for the storage-count role. -/
def storageCountPats : List Str := [str "storagecount", str "storage", str "warehouse", str "stock"]

/-- Candidates for the category role. -/
def categoryPats : List Str := [str "category", str "type", str "group"]

/-- The required-column names of `validateExcelColumns`. -/
def requiredColumns : List Str :=
  [str "itemNumber", str "FloorCount", str "StorageCount", str "Category"]

/-- The missing list of `validateExcelColumns`: a required column is
present only when some header's normalized form equals the normalized
required name. -/
def validateMissing (headers : List Str) : List Str :=
  requiredColumns.filter
    (fun req => !(headers.any (fun h => normHdr h == normHdr req)))

/-- The `validateExcelColumns` result `(valid, missing)`. -/
def validateExcelColumns (headers : List Str) : Bool × List Str :=
  ((validateMissing headers).isEmpty, validateMissing headers)

/-! ## Concrete data for witnesses -/

/-- The built-in `DEFAULT_CATEGORIES` (timestamps omitted). -/
def defaultCategories : List Category :=
  [⟨str "oils", str "Oils", str "drop.fill", str "#007AFF", true, false⟩,
   ⟨str "oil-filters", str "Oil Filters", str "circle.hexagongrid.fill", str "#FF9500", true, false⟩,
   ⟨str "air-filters", str "Air Filters", str "wind", str "#5856D6", true, false⟩,
   ⟨str "cabin-filters", str "Cabin Filters", str "car.fill", str "#34C759", true, false⟩,
   ⟨str "wipers", str "Wipers", str "drop.triangle.fill", str "#FF3B30", true, false⟩,
   ⟨str "misc", str "Miscellaneous", str "ellipsis.circle.fill", str "#8E8E93", true, false⟩]

/-- A deterministic stand-in for the `Date.now()`-based import id
generator. -/
def mkIdDet (i : Nat) : Str := str "import_" ++ natStr i

/-- A sample entry for witnesses. -/
def sampleEntry : Entry :=
  ⟨str "in1", str "OIL-001", some (str "5W-30 Synthetic Motor Oil"), 5, 12, 17, str "oils"⟩

/-- A concrete custom category for witnesses. -/
def customCat : Category :=
  ⟨str "custom-1", str "Custom One", str "tag", str "#123456", false, true⟩

/-- Categories including the custom one, for witnesses. -/
def catsW : List Category := defaultCategories ++ [customCat]

/-- Entries referencing both a built-in and the custom category. -/
def entriesW : List Entry :=
  [sampleEntry, { sampleEntry with id := str "in2", category := str "custom-1" }]

/-- The entry produced from the row `A,3,4,oils` at line index 1. -/
def entryA347 : Entry := ⟨str "import_1", str "A", none, 3, 4, 7, str "oils"⟩

/-- The entry produced from the row `A,-5,2,oils` at line index 1. -/
def entryNeg : Entry := ⟨str "import_1", str "A", none, -5, 2, -3, str "oils"⟩

/-- The entry produced from the row `A,abc,,oils` at line index 1. -/
def entryAbc : Entry := ⟨str "import_1", str "A", none, 0, 0, 0, str "oils"⟩

/-- A lower-cased incoming duplicate of `sampleEntry`'s item number. -/
def entryLower : Entry := ⟨str "n1", str "oil-001", none, 1, 1, 2, str "oils"⟩

/-! # Theorems

General helper lemmas first, then one theorem per specification claim
(with a witness where the theorem carries hypotheses). -/

/-- Characterization of `jsFind` returning `none`: no member satisfies the
predicate. -/
theorem jsFind_eq_none_iff (p : α → Bool) (l : List α) :
    jsFind p l = none ↔ ∀ x ∈ l, p x = false := by
  induction l with
  | nil => simp [jsFind]
  | cons a as ih =>
    simp only [jsFind]
    by_cases h : p a = true
    · simp [h]
    · simp only [Bool.not_eq_true] at h
      simp [h, ih]

/-- A `jsFind` hit is a member satisfying the predicate. -/
theorem jsFind_eq_some_mem (p : α → Bool) (l : List α) (x : α) :
    jsFind p l = some x → x ∈ l ∧ p x = true := by
  induction l with
  | nil => simp [jsFind]
  | cons a as ih =>
    simp only [jsFind]
    by_cases h : p a = true
    · simp only [h, if_true]
      intro hx
      injection hx with hx2
      subst hx2
      exact ⟨List.mem_cons_self _ _, h⟩
    · simp only [Bool.not_eq_true] at h
      simp only [h, Bool.false_eq_true, if_false]
      intro hx
      rcases ih hx with ⟨hm, hp⟩
      exact ⟨List.mem_cons_of_mem a hm, hp⟩

/-- Equal predicates on the members give equal `jsFind` results. -/
theorem jsFind_congr (p q : α → Bool) (l : List α)
    (h : ∀ x ∈ l, p x = q x) : jsFind p l = jsFind q l := by
  induction l with
  | nil => rfl
  | cons a as ih =>
    simp only [jsFind]
    rw [h a (List.mem_cons_self a as),
        ih (fun x hx => h x (List.mem_cons_of_mem a hx))]

/-- Characterization of `jsFindIndex` returning `none`. -/
theorem jsFindIndex_eq_none_iff (p : α → Bool) (l : List α) :
    jsFindIndex p l = none ↔ ∀ x ∈ l, p x = false := by
  induction l with
  | nil => simp [jsFindIndex]
  | cons a as ih =>
    simp only [jsFindIndex]
    by_cases h : p a = true
    · simp [h]
    · simp only [Bool.not_eq_true] at h
      simp [h, ih, Option.map_eq_none]

/-- Characterization of `jsFindIndex` returning `some i`: the element at
`i` matches and nothing to its left does. -/
theorem jsFindIndex_eq_some_iff (p : α → Bool) (l : List α) (i : Nat) :
    jsFindIndex p l = some i ↔
      ∃ hi : i < l.length, p (l.get ⟨i, hi⟩) = true ∧
        ∀ j (hj : j < l.length), j < i → p (l.get ⟨j, hj⟩) = false := by
  induction l generalizing i with
  | nil => simp [jsFindIndex]
  | cons a as ih =>
    simp only [jsFindIndex]
    by_cases h : p a = true
    · simp only [h, if_true]
      constructor
      · intro hx
        cases hx
        exact ⟨Nat.succ_pos _, h, fun j hj hj0 => absurd hj0 (Nat.not_lt_zero j)⟩
      · rintro ⟨hi, hpi, hleft⟩
        cases i with
        | zero => rfl
        | succ i2 =>
          have := hleft 0 (Nat.succ_pos _) (Nat.succ_pos _)
          simp only [List.get] at this
          rw [h] at this
          cases this
    · simp only [Bool.not_eq_true] at h
      simp only [h, Bool.false_eq_true, if_false]
      constructor
      · intro hx
        rcases Option.map_eq_some.mp hx with ⟨i2, hfi, hi2⟩
        subst hi2
        rcases (ih i2).mp hfi with ⟨hlen, hpi, hleft⟩
        refine ⟨Nat.succ_lt_succ hlen, hpi, ?_⟩
        intro j hj hj0
        cases j with
        | zero => simpa using h
        | succ j2 =>
          exact hleft j2 (Nat.lt_of_succ_lt_succ hj) (Nat.lt_of_succ_lt_succ hj0)
      · rintro ⟨hi, hpi, hleft⟩
        cases i with
        | zero => simp only [List.get] at hpi; rw [h] at hpi; cases hpi
        | succ i2 =>
          have hfi : jsFindIndex p as = some i2 := by
            refine (ih i2).mpr ⟨Nat.lt_of_succ_lt_succ hi, hpi, ?_⟩
            intro j hj hj0
            exact hleft (j + 1) (Nat.succ_lt_succ hj) (Nat.succ_lt_succ hj0)
          rw [hfi]
          rfl

/-- Folding the push-if pattern equals `filter` (used by
`getAdjustedItems`). -/
theorem foldl_push_filter (p : α → Bool) (l acc : List α) :
    l.foldl (fun a c => if p c then a ++ [c] else a) acc = acc ++ l.filter p := by
  induction l generalizing acc with
  | nil => simp
  | cons x xs ih =>
    by_cases h : p x = true
    · simp [List.foldl_cons, h, ih, List.filter_cons]
    · simp only [Bool.not_eq_true] at h
      simp [List.foldl_cons, h, ih, List.filter_cons]

/-- C10: `resetFloorCounts` maps each entry to one with `floorCount = 0`
and `totalCount = storageCount`, `resetStorageCounts` maps each entry to
one with `storageCount = 0` and `totalCount = floorCount`; every other
field is unchanged and length and order are preserved. -/
theorem resetCounts_spec (l : List Entry) :
    (resetFloorCounts l).length = l.length ∧
    (resetStorageCounts l).length = l.length ∧
    (∀ i (hi : i < l.length) (hif : i < (resetFloorCounts l).length),
      (resetFloorCounts l).get ⟨i, hif⟩ =
        { l.get ⟨i, hi⟩ with floorCount := 0, totalCount := (l.get ⟨i, hi⟩).storageCount }) ∧
    (∀ i (hi : i < l.length) (his : i < (resetStorageCounts l).length),
      (resetStorageCounts l).get ⟨i, his⟩ =
        { l.get ⟨i, hi⟩ with storageCount := 0, totalCount := (l.get ⟨i, hi⟩).floorCount }) := by
  have hrf : resetFloorCounts l =
      l.map (fun it => { it with floorCount := 0, totalCount := 0 + it.storageCount }) := by
    unfold resetFloorCounts
    split
    · next h => rw [List.length_eq_zero] at h; subst h; rfl
    · rfl
  have hrs : resetStorageCounts l =
      l.map (fun it => { it with storageCount := 0, totalCount := it.floorCount + 0 }) := by
    unfold resetStorageCounts
    split
    · next h => rw [List.length_eq_zero] at h; subst h; rfl
    · rfl
  refine ⟨by rw [hrf]; simp, by rw [hrs]; simp, ?_, ?_⟩
  · intro i hi hif
    simp only [List.get_eq_getElem, hrf, List.getElem_map]
    simp
  · intro i hi his
    simp only [List.get_eq_getElem, hrs, List.getElem_map]
    simp

/-- Witness for `resetCounts_spec` at a concrete entry list. -/
theorem resetCounts_spec_witness :
    (resetFloorCounts [sampleEntry]).get ⟨0, by decide⟩ =
      { sampleEntry with floorCount := 0, totalCount := sampleEntry.storageCount } :=
  (resetCounts_spec [sampleEntry]).2.2.1 0 (by decide) (by decide)

/-- C9: `deleteCategory` deletes only custom categories (otherwise all
three state lists are unchanged, also when the id is unknown); deletion
cascades to every item and entry referencing the id, and preserves the
no-orphans invariant. -/
theorem deleteCategory_spec (cats : List Category) (items : List Item)
    (entries : List Entry) (cid : Str) :
    (jsFind (fun k => k.id == cid) cats = none →
      deleteCategory cats items entries cid = (cats, items, entries)) ∧
    (∀ c, jsFind (fun k => k.id == cid) cats = some c → c.isCustom = false →
      deleteCategory cats items entries cid = (cats, items, entries)) ∧
    (∀ c, jsFind (fun k => k.id == cid) cats = some c → c.isCustom = true →
      deleteCategory cats items entries cid =
        (cats.filter (fun k => !(k.id == cid)),
         items.filter (fun it => !(it.category == cid)),
         entries.filter (fun e => !(e.category == cid)))) ∧
    ((∀ e ∈ entries, ∃ c ∈ cats, e.category = c.id) →
      ∀ e ∈ (deleteCategory cats items entries cid).2.2,
        ∃ c ∈ (deleteCategory cats items entries cid).1, e.category = c.id) := by
  refine ⟨?_, ?_, ?_, ?_⟩
  · intro h
    unfold deleteCategory
    rw [h]
  · intro c hc hcust
    unfold deleteCategory
    rw [hc]
    simp [hcust]
  · intro c hc hcust
    unfold deleteCategory
    rw [hc]
    simp [hcust]
  · intro hinv e he
    rcases hfind : jsFind (fun k => k.id == cid) cats with _ | c
    · have h1 : deleteCategory cats items entries cid = (cats, items, entries) := by
        unfold deleteCategory
        rw [hfind]
      rw [h1] at he ⊢
      exact hinv e he
    · by_cases hcust : c.isCustom = true
      · have h3 : deleteCategory cats items entries cid =
            (cats.filter (fun k => !(k.id == cid)),
             items.filter (fun it => !(it.category == cid)),
             entries.filter (fun e2 => !(e2.category == cid))) := by
          unfold deleteCategory
          rw [hfind]
          simp [hcust]
        rw [h3] at he ⊢
        rcases List.mem_filter.mp he with ⟨hee, hne⟩
        rcases hinv e hee with ⟨c2, hc2, heq⟩
        refine ⟨c2, List.mem_filter.mpr ⟨hc2, ?_⟩, heq⟩
        rw [Bool.not_eq_true'] at hne ⊢
        rw [beq_eq_false_iff_ne] at hne ⊢
        exact heq ▸ hne
      · simp only [Bool.not_eq_true] at hcust
        have h2 : deleteCategory cats items entries cid = (cats, items, entries) := by
          unfold deleteCategory
          rw [hfind]
          simp [hcust]
        rw [h2] at he ⊢
        exact hinv e he

/-- Witness for `deleteCategory_spec`: deleting a concrete custom
category. -/
theorem deleteCategory_spec_witness :
    deleteCategory catsW [] entriesW (str "custom-1") =
      (catsW.filter (fun k => !(k.id == str "custom-1")),
       List.filter (fun it => !(it.category == str "custom-1")) [],
       entriesW.filter (fun e => !(e.category == str "custom-1"))) :=
  (deleteCategory_spec catsW [] entriesW (str "custom-1")).2.2.1
    customCat (by decide) (by decide)

/-- Inversion for an accepted row: the produced entry's fields in terms of
the row's cells (shared helper for the count/total theorems). -/
theorem processRow_ok_shape (cats : List Category) (mkId : Nat → Str)
    (hc : Nat) (pn : Option Nat) (ii fi si cci i : Nat) (raw : Str)
    (e : Entry) :
    processRow cats mkId hc pn ii fi si cci i raw = some (RowOutcome.ok e) →
    ∃ cid,
      matchCategory cats (jsLower (jsTrim ((rowCells (jsTrim raw)).getD cci []))) = some cid ∧
      e = { id := mkId i,
            itemNumber := jsTrim ((rowCells (jsTrim raw)).getD ii []),
            productName :=
              (fun p => if p.isEmpty then none else some p)
                (match pn with
                 | some k => jsTrim ((rowCells (jsTrim raw)).getD k [])
                 | none => []),
            floorCount := jsParseIntOr0 (jsTrim ((rowCells (jsTrim raw)).getD fi [])),
            storageCount := jsParseIntOr0 (jsTrim ((rowCells (jsTrim raw)).getD si [])),
            totalCount := jsParseIntOr0 (jsTrim ((rowCells (jsTrim raw)).getD fi [])) +
                          jsParseIntOr0 (jsTrim ((rowCells (jsTrim raw)).getD si [])),
            category := cid } := by
  intro h
  by_cases h1 : (jsTrim raw).isEmpty = true
  · simp [processRow, h1] at h
  · simp only [Bool.not_eq_true] at h1
    simp only [processRow, h1, Bool.false_eq_true, if_false, Option.some.injEq] at h
    split at h
    · exact RowOutcome.noConfusion h
    · split at h
      · exact RowOutcome.noConfusion h
      · split at h
        · exact RowOutcome.noConfusion h
        · next cid heq =>
          refine ⟨cid, heq, ?_⟩
          injection h with h4
          exact h4.symm

/-- C1 counterexample: `updateItemNumber` applies a partial update
verbatim — a `floorCount`-only update leaves `totalCount` stale, and
`totalCount` is independently settable. -/
theorem updateItemNumber_stale_total :
    updateItemNumber [sampleEntry] (str "in1") { floorCount := some 50 } =
      [{ sampleEntry with floorCount := 50 }] ∧
    ({ sampleEntry with floorCount := 50 } : Entry).totalCount ≠
      ({ sampleEntry with floorCount := 50 } : Entry).floorCount +
        ({ sampleEntry with floorCount := 50 } : Entry).storageCount ∧
    updateItemNumber [sampleEntry] (str "in1") { totalCount := some 99 } =
      [{ sampleEntry with totalCount := 99 }] := by decide

/-- C1 (amended): import row construction, the per-field edit and the
count resets maintain `totalCount = floorCount + storageCount`; the
generic partial update applies the updates object verbatim, so after it
the invariant holds exactly when the (possibly defaulted) `totalCount`
update equals the resulting `floorCount + storageCount`. -/
theorem total_invariant_amended :
    (∀ cats mkId hc pn ii fi si cci i raw e,
      processRow cats mkId hc pn ii fi si cci i raw = some (RowOutcome.ok e) →
      e.totalCount = e.floorCount + e.storageCount) ∧
    (∀ l uid f, (∀ x ∈ l, x.totalCount = x.floorCount + x.storageCount) →
      ∀ y ∈ handleItemNumberChange l uid f,
        y.totalCount = y.floorCount + y.storageCount) ∧
    (∀ l, ∀ y ∈ resetFloorCounts l,
      y.totalCount = y.floorCount + y.storageCount) ∧
    (∀ l, ∀ y ∈ resetStorageCounts l,
      y.totalCount = y.floorCount + y.storageCount) ∧
    (∀ e u,
      (applyUpdates e u).totalCount =
          (applyUpdates e u).floorCount + (applyUpdates e u).storageCount ↔
        u.totalCount.getD e.totalCount =
          u.floorCount.getD e.floorCount + u.storageCount.getD e.storageCount) := by
  refine ⟨?_, ?_, ?_, ?_, ?_⟩
  · intro cats mkId hc pn ii fi si cci i raw e h
    rcases processRow_ok_shape cats mkId hc pn ii fi si cci i raw e h with ⟨cid, _, he⟩
    rw [he]
  · intro l uid f hinv y hy
    rcases List.mem_map.mp hy with ⟨x, hx, hxy⟩
    subst hxy
    by_cases hid : (x.id == uid) = true
    · cases f <;> simp [hid, applyFieldEdit, hinv x hx]
    · simp only [Bool.not_eq_true] at hid
      simp [hid, hinv x hx]
  · intro l y hy
    unfold resetFloorCounts at hy
    split at hy
    · next h => rw [List.length_eq_zero] at h; subst h; simp at hy
    · rcases List.mem_map.mp hy with ⟨x, hx, hxy⟩
      subst hxy
      rfl
  · intro l y hy
    unfold resetStorageCounts at hy
    split at hy
    · next h => rw [List.length_eq_zero] at h; subst h; simp at hy
    · rcases List.mem_map.mp hy with ⟨x, hx, hxy⟩
      subst hxy
      rfl
  · intro e u
    exact Iff.rfl

/-- Witness for `total_invariant_amended`: the entry produced from the
concrete row `A,3,4,oils` satisfies the total invariant. -/
theorem total_invariant_amended_witness :
    entryA347.totalCount = entryA347.floorCount + entryA347.storageCount :=
  total_invariant_amended.1 defaultCategories mkIdDet 4 none 0 1 2 3 1
    (str "A,3,4,oils") entryA347 (by decide)

/-- C5 counterexample: the row `A,-5,2,oils` is accepted and produces a
negative `floorCount`. -/
theorem processRow_negative_count :
    processRow defaultCategories mkIdDet 4 none 0 1 2 3 1 (str "A,-5,2,oils") =
      some (RowOutcome.ok entryNeg) ∧ entryNeg.floorCount < 0 := by decide

/-- C5 (amended): counts come from `parseInt(cell) || 0`, so an absent,
empty or unparsable count cell defaults to `0` and never errors the row
(the spec's `abc`/empty scenario included); negative cells, however,
parse to negative counts. -/
theorem processRow_count_leniency :
    (∀ s, jsParseInt s = none → jsParseIntOr0 s = 0) ∧
    (∀ cats mkId hc pn ii fi si cci i raw e,
      processRow cats mkId hc pn ii fi si cci i raw = some (RowOutcome.ok e) →
      e.floorCount = jsParseIntOr0 (jsTrim ((rowCells (jsTrim raw)).getD fi [])) ∧
      e.storageCount = jsParseIntOr0 (jsTrim ((rowCells (jsTrim raw)).getD si []))) ∧
    processRow defaultCategories mkIdDet 4 none 0 1 2 3 1 (str "A,abc,,oils") =
      some (RowOutcome.ok entryAbc) := by
  refine ⟨?_, ?_, by decide⟩
  · intro s h
    unfold jsParseIntOr0
    rw [h]
    rfl
  · intro cats mkId hc pn ii fi si cci i raw e h
    rcases processRow_ok_shape cats mkId hc pn ii fi si cci i raw e h with ⟨cid, _, he⟩
    rw [he]
    exact ⟨rfl, rfl⟩

/-- Witness for `processRow_count_leniency` at the concrete lenient row. -/
theorem processRow_count_leniency_witness :
    entryAbc.floorCount =
      jsParseIntOr0 (jsTrim ((rowCells (jsTrim (str "A,abc,,oils"))).getD 1 [])) ∧
    entryAbc.storageCount =
      jsParseIntOr0 (jsTrim ((rowCells (jsTrim (str "A,abc,,oils"))).getD 2 [])) :=
  processRow_count_leniency.2.1 defaultCategories mkIdDet 4 none 0 1 2 3 1
    (str "A,abc,,oils") entryAbc (by decide)

/-- C3: with an empty snapshot the result is exactly the current list;
otherwise an entry is kept iff no snapshot entry has an exactly equal
`itemNumber`, or the (first) matching snapshot entry differs in
`floorCount`, `storageCount` or `productName` (a category-only difference
is not flagged); the result preserves the input order. -/
theorem getAdjustedItems_spec (current snap : List Entry) :
    (snap = [] → getAdjustedItems current snap = current) ∧
    (∀ x, x ∈ getAdjustedItems current snap ↔
      x ∈ current ∧
        ((∀ s ∈ snap, s.itemNumber ≠ x.itemNumber) ∨
         (∃ s, jsFind (fun s2 => s2.itemNumber == x.itemNumber) snap = some s ∧
            (x.floorCount ≠ s.floorCount ∨ x.storageCount ≠ s.storageCount ∨
             x.productName ≠ s.productName)))) ∧
    (getAdjustedItems current snap).Sublist current := by
  by_cases hs : snap = []
  · subst hs
    refine ⟨fun _ => by simp [getAdjustedItems], ?_, ?_⟩
    · intro x
      unfold getAdjustedItems
      simp only [List.length_nil, if_pos rfl]
      constructor
      · intro h
        exact ⟨h, Or.inl (fun s hs2 => absurd hs2 (List.not_mem_nil s))⟩
      · exact And.left
    · unfold getAdjustedItems
      simp only [List.length_nil, if_pos rfl]
      exact List.Sublist.refl current
  · have hlen : ¬snap.length = 0 := fun h => hs (List.length_eq_zero.mp h)
    have hg : getAdjustedItems current snap = current.filter (entryChanged snap) := by
      unfold getAdjustedItems
      rw [if_neg hlen, foldl_push_filter]
      simp
    refine ⟨fun h => absurd h hs, ?_, ?_⟩
    · intro x
      rw [hg, List.mem_filter]
      constructor
      · rintro ⟨hx, hch⟩
        refine ⟨hx, ?_⟩
        unfold entryChanged at hch
        cases hf : jsFind (fun s2 => s2.itemNumber == x.itemNumber) snap with
        | none =>
          left
          intro s hsm
          have h2 := (jsFind_eq_none_iff _ _).mp hf s hsm
          rw [beq_eq_false_iff_ne] at h2
          exact h2
        | some s =>
          right
          rw [hf] at hch
          refine ⟨s, rfl, ?_⟩
          simp only [Bool.or_eq_true, decide_eq_true_eq] at hch
          tauto
      · rintro ⟨hx, hcond⟩
        refine ⟨hx, ?_⟩
        unfold entryChanged
        cases hf : jsFind (fun s2 => s2.itemNumber == x.itemNumber) snap with
        | none => rfl
        | some s =>
          rcases hcond with hall | ⟨s2, hs2, hdiff⟩
          · have hm := jsFind_eq_some_mem _ _ _ hf
            rw [beq_iff_eq] at hm
            exact absurd hm.2 (hall s hm.1)
          · rw [hf] at hs2
            injection hs2 with hss
            subst hss
            simp only [Bool.or_eq_true, decide_eq_true_eq]
            tauto
    · rw [hg]
      exact List.filter_sublist current

/-- Witness for `getAdjustedItems_spec`: the empty-snapshot case at a
concrete list. -/
theorem getAdjustedItems_spec_witness :
    getAdjustedItems [sampleEntry] [] = [sampleEntry] :=
  (getAdjustedItems_spec [sampleEntry] []).1 rfl

/-- C6: when any of the four required roles fails to resolve, the import
aborts before row processing with a message that is exactly the
enumeration of the missing role names (and a zero processed count, state
unchanged); when all four resolve, it proceeds to the row phase whatever
happened to the product-name role. -/
theorem uploadCSV_missing_columns_spec (mkId : Nat → Str)
    (cats : List Category) (existing : List Entry) (csvData : Str)
    (hdrLine : Str) (dataLines : List Str)
    (hne : (jsTrim csvData).isEmpty = false)
    (hlines : jsLines csvData = hdrLine :: dataLines) :
    (missingRoles (resolveHeaderIndices (parseHeaders hdrLine)) ≠ [] →
      uploadCSV mkId cats existing csvData =
        (missingColsResult
          (missingRoles (resolveHeaderIndices (parseHeaders hdrLine)))
          (parseHeaders hdrLine), existing) ∧
      (missingColsResult
          (missingRoles (resolveHeaderIndices (parseHeaders hdrLine)))
          (parseHeaders hdrLine)).message =
        str "Missing required columns: " ++ joinSep (str ", ")
          ((if (resolveHeaderIndices (parseHeaders hdrLine)).item.isNone
              then [str "itemNumber"] else []) ++
           (if (resolveHeaderIndices (parseHeaders hdrLine)).floor.isNone
              then [str "FloorCount"] else []) ++
           (if (resolveHeaderIndices (parseHeaders hdrLine)).storage.isNone
              then [str "StorageCount"] else []) ++
           (if (resolveHeaderIndices (parseHeaders hdrLine)).cat.isNone
              then [str "Category"] else [])) ∧
      (missingColsResult
          (missingRoles (resolveHeaderIndices (parseHeaders hdrLine)))
          (parseHeaders hdrLine)).processedCount = 0) ∧
    (∀ ii fi si cci,
      (resolveHeaderIndices (parseHeaders hdrLine)).item = some ii →
      (resolveHeaderIndices (parseHeaders hdrLine)).floor = some fi →
      (resolveHeaderIndices (parseHeaders hdrLine)).storage = some si →
      (resolveHeaderIndices (parseHeaders hdrLine)).cat = some cci →
      uploadCSV mkId cats existing csvData =
        rowPhase cats mkId existing (parseHeaders hdrLine).length
          (resolveHeaderIndices (parseHeaders hdrLine)).pn ii fi si cci
          dataLines) := by
  have hu : uploadCSV mkId cats existing csvData =
      headerPhase mkId cats existing hdrLine dataLines := by
    unfold uploadCSV
    simp only [hne, Bool.false_eq_true, if_false]
    rw [hlines]
  constructor
  · intro hmiss
    refine ⟨?_, rfl, rfl⟩
    rw [hu]
    unfold headerPhase
    rcases h1 : (resolveHeaderIndices (parseHeaders hdrLine)).item with _ | ii <;>
      rcases h2 : (resolveHeaderIndices (parseHeaders hdrLine)).floor with _ | fi <;>
      rcases h3 : (resolveHeaderIndices (parseHeaders hdrLine)).storage with _ | si <;>
      rcases h4 : (resolveHeaderIndices (parseHeaders hdrLine)).cat with _ | cci <;>
      first
        | rfl
        | (exfalso
           exact hmiss (by simp [missingRoles, h1, h2, h3, h4]))
  · intro ii fi si cci h1 h2 h3 h4
    rw [hu]
    unfold headerPhase
    rw [h1, h2, h3, h4]

/-- Witness for `uploadCSV_missing_columns_spec`: headers `Name,Category`
resolve neither item-number nor the counts, so the import aborts. -/
theorem uploadCSV_missing_columns_spec_witness :
    uploadCSV mkIdDet defaultCategories [] (str "Name,Category\nfoo,oils") =
      (missingColsResult
        (missingRoles (resolveHeaderIndices (parseHeaders (str "Name,Category"))))
        (parseHeaders (str "Name,Category")), []) :=
  ((uploadCSV_missing_columns_spec mkIdDet defaultCategories []
      (str "Name,Category\nfoo,oils") (str "Name,Category") [str "foo,oils"]
      (by decide) (by decide)).1 (by decide)).1

/-- C8 counterexample: the header `My Item Number Col` resolves the
item-number role by normalized containment in `parseExcelRow`, yet
`validateExcelColumns` still reports `itemNumber` missing, because the
presence check demands normalized equality, not containment. -/
theorem headerResolution_presence_counterexample :
    findIndexByPats
        [str "My Item Number Col", str "FloorCount", str "StorageCount", str "Category"]
        itemNumberPats = some 0 ∧
    str "itemNumber" ∈ (validateExcelColumns
        [str "My Item Number Col", str "FloorCount", str "StorageCount", str "Category"]).2 ∧
    (validateExcelColumns
        [str "My Item Number Col", str "FloorCount", str "StorageCount", str "Category"]).1
      = false := by decide

/-- C8 (amended): `parseExcelRow` resolves a role to the leftmost header
whose normalized form contains a candidate substring; required-column
presence in `validateExcelColumns`, by contrast, demands normalized
equality between a header and the required role name. -/
theorem headerResolution_amended :
    (∀ headers pats i, findIndexByPats headers pats = some i ↔
      ∃ hi : i < headers.length, hdrMatchesPats pats (headers.get ⟨i, hi⟩) = true ∧
        ∀ j (hj : j < headers.length), j < i →
          hdrMatchesPats pats (headers.get ⟨j, hj⟩) = false) ∧
    (∀ headers pats, findIndexByPats headers pats = none ↔
      ∀ h ∈ headers, hdrMatchesPats pats h = false) ∧
    (∀ headers req, req ∈ (validateExcelColumns headers).2 ↔
      req ∈ requiredColumns ∧ ∀ h ∈ headers, normHdr h ≠ normHdr req) ∧
    (∀ headers, (validateExcelColumns headers).1 = true ↔
      (validateExcelColumns headers).2 = []) := by
  refine ⟨?_, ?_, ?_, ?_⟩
  · intro headers pats i
    exact jsFindIndex_eq_some_iff _ _ _
  · intro headers pats
    exact jsFindIndex_eq_none_iff _ _
  · intro headers req
    have h2 : (validateExcelColumns headers).2 = validateMissing headers := rfl
    rw [h2]
    unfold validateMissing
    rw [List.mem_filter]
    constructor
    · rintro ⟨hreq, hcond⟩
      refine ⟨hreq, ?_⟩
      intro h hm heq
      rw [Bool.not_eq_true'] at hcond
      rw [List.any_eq_false] at hcond
      apply hcond h hm
      rw [beq_iff_eq]
      exact heq
    · rintro ⟨hreq, hcond⟩
      refine ⟨hreq, ?_⟩
      rw [Bool.not_eq_true']
      rw [List.any_eq_false]
      intro h hm hb
      rw [beq_iff_eq] at hb
      exact hcond h hm hb
  · intro headers
    have h1 : (validateExcelColumns headers).1 = (validateMissing headers).isEmpty := rfl
    have h2 : (validateExcelColumns headers).2 = validateMissing headers := rfl
    rw [h1, h2]
    exact List.isEmpty_iff

/-- Witness for `headerResolution_amended`: a space-separated floor-count
header is not an `itemNumber` presence match. -/
theorem headerResolution_amended_witness :
    str "itemNumber" ∈ (validateExcelColumns [str "Floor Count"]).2 :=
  (headerResolution_amended.2.2.1 [str "Floor Count"] (str "itemNumber")).mpr
    ⟨by decide, by decide⟩

/-- The row loop distributes over list append (shared helper). -/
theorem processRows_append (cats : List Category) (mkId : Nat → Str)
    (hc : Nat) (pn : Option Nat) (ii fi si cci : Nat) (i : Nat)
    (l1 l2 : List Str) :
    processRows cats mkId hc pn ii fi si cci i (l1 ++ l2) =
      ⟨(processRows cats mkId hc pn ii fi si cci i l1).entries ++
         (processRows cats mkId hc pn ii fi si cci (i + l1.length) l2).entries,
       (processRows cats mkId hc pn ii fi si cci i l1).errors ++
         (processRows cats mkId hc pn ii fi si cci (i + l1.length) l2).errors,
       (processRows cats mkId hc pn ii fi si cci i l1).processed +
         (processRows cats mkId hc pn ii fi si cci (i + l1.length) l2).processed,
       (processRows cats mkId hc pn ii fi si cci i l1).errCount +
         (processRows cats mkId hc pn ii fi si cci (i + l1.length) l2).errCount⟩ := by
  induction l1 generalizing i with
  | nil => simp [processRows]
  | cons l ls ih =>
    have hidx : i + (l :: ls).length = (i + 1) + ls.length := by
      simp only [List.length_cons]
      omega
    rw [List.cons_append]
    cases hr : processRow cats mkId hc pn ii fi si cci i l with
    | none =>
      simp only [processRows, hr]
      rw [ih (i + 1), hidx]
    | some o =>
      cases o with
      | ok e =>
        simp only [processRows, hr]
        rw [ih (i + 1), hidx]
        simp [RowsResult.mk.injEq, List.cons_append]
        omega
      | err m =>
        simp only [processRows, hr]
        rw [ih (i + 1), hidx]
        simp [RowsResult.mk.injEq, List.cons_append]
        omega

/-- C7: a data row whose category matches nothing produces exactly one
row error carrying the 1-based row number and the attempted value,
contributes no entry, and leaves the processing of all other rows
unchanged. -/
theorem processRows_category_error_spec (cats : List Category)
    (mkId : Nat → Str) (hc : Nat) (pn : Option Nat) (ii fi si cci i : Nat)
    (pre : List Str) (line : Str) (post : List Str)
    (h1 : (jsTrim line).isEmpty = false)
    (h2 : ¬ ((rowCells (jsTrim line)).length : Int) <
        max (max (ii : Int) (fi : Int))
          (max (max (si : Int) (cci : Int))
            (match pn with | some k => (k : Int) | none => -1)) + 1)
    (h3 : (jsTrim ((rowCells (jsTrim line)).getD ii [])).isEmpty = false)
    (h4 : matchCategory cats
        (jsLower (jsTrim ((rowCells (jsTrim line)).getD cci []))) = none) :
    processRow cats mkId hc pn ii fi si cci (i + pre.length) line =
      some (RowOutcome.err (catErrMsg (i + pre.length)
        (jsLower (jsTrim ((rowCells (jsTrim line)).getD cci []))) cats)) ∧
    (processRows cats mkId hc pn ii fi si cci i (pre ++ line :: post)).entries =
      (processRows cats mkId hc pn ii fi si cci i pre).entries ++
        (processRows cats mkId hc pn ii fi si cci (i + pre.length + 1) post).entries ∧
    (processRows cats mkId hc pn ii fi si cci i (pre ++ line :: post)).errors =
      (processRows cats mkId hc pn ii fi si cci i pre).errors ++
        catErrMsg (i + pre.length)
            (jsLower (jsTrim ((rowCells (jsTrim line)).getD cci []))) cats ::
          (processRows cats mkId hc pn ii fi si cci (i + pre.length + 1) post).errors ∧
    (processRows cats mkId hc pn ii fi si cci i (pre ++ line :: post)).processed =
      (processRows cats mkId hc pn ii fi si cci i pre).processed +
        (processRows cats mkId hc pn ii fi si cci (i + pre.length + 1) post).processed ∧
    (processRows cats mkId hc pn ii fi si cci i (pre ++ line :: post)).errCount =
      (processRows cats mkId hc pn ii fi si cci i pre).errCount +
        ((processRows cats mkId hc pn ii fi si cci (i + pre.length + 1) post).errCount + 1) := by
  have hrow : processRow cats mkId hc pn ii fi si cci (i + pre.length) line =
      some (RowOutcome.err (catErrMsg (i + pre.length)
        (jsLower (jsTrim ((rowCells (jsTrim line)).getD cci []))) cats)) := by
    simp only [processRow, h1, Bool.false_eq_true, if_false]
    rw [if_neg h2]
    simp only [h3, Bool.false_eq_true, if_false]
    rw [h4]
  have hsplit := processRows_append cats mkId hc pn ii fi si cci i pre (line :: post)
  refine ⟨hrow, ?_, ?_, ?_, ?_⟩ <;>
    rw [hsplit] <;> simp only [processRows, hrow]

/-- Witness for `processRows_category_error_spec`: the middle row with
category `zzz` fails and its error message embeds row number and value. -/
theorem processRows_category_error_spec_witness :
    processRow defaultCategories mkIdDet 4 none 0 1 2 3
        (1 + [str "X,1,2,oils"].length) (str "Y,1,2,zzz") =
      some (RowOutcome.err (catErrMsg (1 + [str "X,1,2,oils"].length)
        (jsLower (jsTrim ((rowCells (jsTrim (str "Y,1,2,zzz"))).getD 3 [])))
        defaultCategories)) :=
  (processRows_category_error_spec defaultCategories mkIdDet 4 none 0 1 2 3 1
    [str "X,1,2,oils"] (str "Y,1,2,zzz") [str "Z,3,4,misc"]
    (by decide) (by decide) (by decide) (by decide)).1

/-- A stripped character disappears from `stripSpecial`. -/
theorem stripSpecial_cons_strip (c : Char) (cs : Str)
    (h : (isWS c || decide (c = '-') || decide (c = '_')) = true) :
    stripSpecial (c :: cs) = stripSpecial cs := by
  simp only [stripSpecial, List.filter_cons, h]
  simp

/-- A kept character survives `stripSpecial`. -/
theorem stripSpecial_cons_keep (c : Char) (cs : Str)
    (h : (isWS c || decide (c = '-') || decide (c = '_')) = false) :
    stripSpecial (c :: cs) = c :: stripSpecial cs := by
  simp only [stripSpecial, List.filter_cons, h]
  simp

/-- Replacing whitespace runs by hyphens does not change the
whitespace/hyphen/underscore-stripped form. -/
theorem stripSpecial_wsRunsAux (b : Bool) (s : Str) :
    stripSpecial (wsRunsToHyphenAux b s) = stripSpecial s := by
  induction s generalizing b with
  | nil => cases b <;> rfl
  | cons c cs ih =>
    by_cases hw : isWS c = true
    · have hstrip : (isWS c || decide (c = '-') || decide (c = '_')) = true := by
        rw [hw]
        simp
      rw [stripSpecial_cons_strip c cs hstrip]
      cases b with
      | false =>
        simp only [wsRunsToHyphenAux, hw, if_true, Bool.false_eq_true, if_false]
        rw [stripSpecial_cons_strip '-' _ (by decide)]
        exact ih true
      | true =>
        simp only [wsRunsToHyphenAux, hw, if_true]
        exact ih true
    · simp only [Bool.not_eq_true] at hw
      simp only [wsRunsToHyphenAux, hw, Bool.false_eq_true, if_false]
      by_cases hk : (isWS c || decide (c = '-') || decide (c = '_')) = true
      · rw [stripSpecial_cons_strip c _ hk, stripSpecial_cons_strip c cs hk]
        exact ih false
      · simp only [Bool.not_eq_true] at hk
        rw [stripSpecial_cons_keep c _ hk, stripSpecial_cons_keep c cs hk]
        rw [ih false]

/-- Specialization of `stripSpecial_wsRunsAux` to `wsRunsToHyphen`. -/
theorem stripSpecial_wsRuns (s : Str) :
    stripSpecial (wsRunsToHyphen s) = stripSpecial s :=
  stripSpecial_wsRunsAux false s

/-- Replacing hyphens by spaces does not change the stripped form. -/
theorem stripSpecial_hyphenToSpace (s : Str) :
    stripSpecial (hyphenToSpace s) = stripSpecial s := by
  induction s with
  | nil => rfl
  | cons c cs ih =>
    have hmap : hyphenToSpace (c :: cs) =
        (if c = '-' then ' ' else c) :: hyphenToSpace cs := rfl
    rw [hmap]
    by_cases hd : c = '-'
    · subst hd
      rw [if_pos rfl]
      rw [stripSpecial_cons_strip ' ' _ (by decide),
          stripSpecial_cons_strip '-' cs (by decide)]
      exact ih
    · rw [if_neg hd]
      by_cases hk : (isWS c || decide (c = '-') || decide (c = '_')) = true
      · rw [stripSpecial_cons_strip c _ hk, stripSpecial_cons_strip c cs hk]
        exact ih
      · simp only [Bool.not_eq_true] at hk
        rw [stripSpecial_cons_keep c _ hk, stripSpecial_cons_keep c cs hk]
        rw [ih]

/-- The source's layer-3 predicate is equivalent to plain normalized
equality: its two extra disjuncts are subsumed. -/
theorem flex3_eq_spec (input : Str) (c : Category) :
    flex3 input c = flex3Spec input c := by
  simp only [flex3, flex3Spec]
  by_cases e1 : (wsRunsToHyphen (jsLower c.name) == input) = true
  · have heq : wsRunsToHyphen (jsLower c.name) = input := by rwa [beq_iff_eq] at e1
    have hn : stripSpecial (jsLower c.name) = stripSpecial input := by
      rw [← heq]
      exact (stripSpecial_wsRuns (jsLower c.name)).symm
    have hb : (stripSpecial (jsLower c.name) == stripSpecial input) = true := by
      rw [beq_iff_eq]
      exact hn
    simp [hb]
  · by_cases e2 : (hyphenToSpace (jsLower c.id) == input) = true
    · have heq : hyphenToSpace (jsLower c.id) = input := by rwa [beq_iff_eq] at e2
      have hn : stripSpecial (jsLower c.id) = stripSpecial input := by
        rw [← heq]
        exact (stripSpecial_hyphenToSpace (jsLower c.id)).symm
      have hb : (stripSpecial (jsLower c.id) == stripSpecial input) = true := by
        rw [beq_iff_eq]
        exact hn
      simp [hb]
    · simp only [Bool.not_eq_true] at e1 e2
      rw [e1, e2]
      simp

/-- C4: the category matcher is exactly the specification's layered
algorithm — case-insensitive id equality, then name equality, then
normalized equality, then substring containment, then the heuristic
variants in their listed order; each layer only on failure of the
previous ones, first category in list order winning within a layer. -/
theorem matchCategory_layered (cats : List Category) (input : Str) :
    matchCategory cats input = matchCategorySpec cats input := by
  unfold matchCategory matchCategorySpec
  rw [jsFind_congr (flex3 input) (flex3Spec input) cats
    (fun c _ => flex3_eq_spec input c)]

/-- A hit in the left part of an append is the hit of the whole. -/
theorem jsFindIndex_append_some (p : α → Bool) (l1 l2 : List α) (i : Nat)
    (h : jsFindIndex p l1 = some i) :
    jsFindIndex p (l1 ++ l2) = some i := by
  induction l1 generalizing i with
  | nil => simp [jsFindIndex] at h
  | cons a as ih =>
    simp only [jsFindIndex, List.cons_append, List.append_eq] at h ⊢
    by_cases hp : p a = true
    · simp only [hp, if_true] at h ⊢
      exact h
    · simp only [Bool.not_eq_true] at hp
      simp only [hp, Bool.false_eq_true, if_false] at h ⊢
      rcases Option.map_eq_some.mp h with ⟨i2, hfi, hi2⟩
      rw [ih i2 hfi]
      simpa using hi2

/-- With no hit on the left, a matching appended element is found at the
left length. -/
theorem jsFindIndex_append_last (p : α → Bool) (l : List α) (e : α)
    (hnone : jsFindIndex p l = none) (hp : p e = true) :
    jsFindIndex p (l ++ [e]) = some l.length := by
  induction l with
  | nil => simp [jsFindIndex, hp]
  | cons a as ih =>
    simp only [jsFindIndex, List.cons_append, List.append_eq] at hnone ⊢
    by_cases hpa : p a = true
    · simp [hpa] at hnone
    · simp only [Bool.not_eq_true] at hpa
      simp only [hpa, Bool.false_eq_true, if_false] at hnone
      have hnone2 : jsFindIndex p as = none := by
        cases hh : jsFindIndex p as
        · rfl
        · rw [hh] at hnone
          simp at hnone
      simp only [hpa, Bool.false_eq_true, if_false]
      rw [ih hnone2]
      simp

/-- The append branch of `upsertStep`. -/
theorem upsertStep_none (acc : List Entry × Nat × Nat) (e : Entry)
    (h : jsFindIndex (fun x => keyOf x == keyOf e) acc.1 = none) :
    upsertStep acc e = (acc.1 ++ [e], acc.2.1 + 1, acc.2.2) := by
  unfold upsertStep
  rw [h]

/-- The replace branch of `upsertStep`. -/
theorem upsertStep_some (acc : List Entry × Nat × Nat) (e : Entry) (idx : Nat)
    (h : jsFindIndex (fun x => keyOf x == keyOf e) acc.1 = some idx) :
    upsertStep acc e = (acc.1.set idx e, acc.2.1, acc.2.2 + 1) := by
  unfold upsertStep
  rw [h]

/-- After its own step, the processed entry sits at the first index whose
key matches its own. -/
theorem upsertStep_findIndex_self (acc : List Entry × Nat × Nat) (e : Entry) :
    ∃ i0, ∃ h0 : i0 < (upsertStep acc e).1.length,
      jsFindIndex (fun y => keyOf y == keyOf e) (upsertStep acc e).1 = some i0 ∧
      (upsertStep acc e).1.get ⟨i0, h0⟩ = e := by
  cases hf : jsFindIndex (fun x => keyOf x == keyOf e) acc.1 with
  | none =>
    rw [upsertStep_none acc e hf]
    refine ⟨acc.1.length, by simp, ?_, ?_⟩
    · exact jsFindIndex_append_last _ _ _ hf (beq_self_eq_true (keyOf e))
    · simp only [List.get_eq_getElem]
      exact List.getElem_concat_length acc.1 e acc.1.length rfl _
  | some idx =>
    rw [upsertStep_some acc e idx hf]
    rcases (jsFindIndex_eq_some_iff _ _ _).mp hf with ⟨hlt, hp, hleft⟩
    refine ⟨idx, by simpa using hlt, ?_, ?_⟩
    · apply (jsFindIndex_eq_some_iff _ _ _).mpr
      refine ⟨by simpa using hlt, ?_, ?_⟩
      · simp only [List.get_eq_getElem, List.getElem_set_self]
        exact beq_self_eq_true (keyOf e)
      · intro j hj hji
        simp only [List.get_eq_getElem]
        rw [List.getElem_set_ne (Nat.ne_of_gt hji)]
        have hj2 : j < acc.1.length := by simpa using hj
        exact hleft j hj2 hji
    · simp only [List.get_eq_getElem, List.getElem_set_self]

/-- A step with a different key moves neither the first index of a key
nor the entry stored there. -/
theorem upsertStep_findIndex_preserved (acc : List Entry × Nat × Nat)
    (e : Entry) (k : Str) (x : Entry) (i0 : Nat) (h0 : i0 < acc.1.length)
    (hfi : jsFindIndex (fun y => keyOf y == k) acc.1 = some i0)
    (hx : acc.1.get ⟨i0, h0⟩ = x) (hk : keyOf e ≠ k) :
    ∃ h1 : i0 < (upsertStep acc e).1.length,
      jsFindIndex (fun y => keyOf y == k) (upsertStep acc e).1 = some i0 ∧
      (upsertStep acc e).1.get ⟨i0, h1⟩ = x := by
  rcases (jsFindIndex_eq_some_iff _ _ _).mp hfi with ⟨hlt, hp, hleft⟩
  cases hf : jsFindIndex (fun y => keyOf y == keyOf e) acc.1 with
  | none =>
    rw [upsertStep_none acc e hf]
    have hlen : i0 < (acc.1 ++ [e]).length := by
      simp only [List.length_append, List.length_cons, List.length_nil]
      omega
    refine ⟨hlen, ?_, ?_⟩
    · exact jsFindIndex_append_some _ _ _ _ hfi
    · simp only [List.get_eq_getElem] at hx ⊢
      rw [List.getElem_append_left h0]
      exact hx
  | some j0 =>
    rw [upsertStep_some acc e j0 hf]
    rcases (jsFindIndex_eq_some_iff _ _ _).mp hf with ⟨hltj, hpj, hleftj⟩
    have hne : j0 ≠ i0 := by
      intro hcontra
      subst hcontra
      rw [beq_iff_eq] at hp hpj
      exact hk (hpj.symm.trans hp)
    refine ⟨by simpa using h0, ?_, ?_⟩
    · apply (jsFindIndex_eq_some_iff _ _ _).mpr
      refine ⟨by simpa using hlt, ?_, ?_⟩
      · simp only [List.get_eq_getElem]
        rw [List.getElem_set_ne hne]
        simp only [List.get_eq_getElem] at hp
        exact hp
      · intro j hj hji
        simp only [List.get_eq_getElem]
        by_cases hjj : j0 = j
        · subst hjj
          rw [List.getElem_set_self]
          rw [beq_eq_false_iff_ne]
          exact hk
        · rw [List.getElem_set_ne hjj]
          have hj2 : j < acc.1.length := by simpa using hj
          exact hleft j hj2 hji
    · simp only [List.get_eq_getElem] at hx ⊢
      rw [List.getElem_set_ne hne]
      exact hx

/-- Folding further incoming entries whose keys all differ from `k`
preserves the first-`k`-index and its entry. -/
theorem reconcileFold_findIndex_preserved (inc : List Entry) :
    ∀ (acc : List Entry × Nat × Nat) (k : Str) (x : Entry) (i0 : Nat)
      (h0 : i0 < acc.1.length),
      jsFindIndex (fun y => keyOf y == k) acc.1 = some i0 →
      acc.1.get ⟨i0, h0⟩ = x →
      (∀ e2 ∈ inc, keyOf e2 ≠ k) →
      ∃ i1, ∃ h1 : i1 < (inc.foldl upsertStep acc).1.length,
        jsFindIndex (fun y => keyOf y == k) (inc.foldl upsertStep acc).1 = some i1 ∧
        (inc.foldl upsertStep acc).1.get ⟨i1, h1⟩ = x := by
  induction inc with
  | nil =>
    intro acc k x i0 h0 hfi hx _
    exact ⟨i0, h0, hfi, hx⟩
  | cons e2 rest ih =>
    intro acc k x i0 h0 hfi hx hks
    rw [List.foldl_cons]
    rcases upsertStep_findIndex_preserved acc e2 k x i0 h0 hfi hx
        (hks e2 (List.mem_cons_self _ _)) with ⟨h1, hfi2, hx2⟩
    exact ih (upsertStep acc e2) k x i0 h1 hfi2 hx2
      (fun e3 he3 => hks e3 (List.mem_cons_of_mem _ he3))

/-- C2: one reconciliation step replaces the first case-insensitive
`itemNumber` match in place (counting it updated) or appends (counting it
new); the whole batch is folded in order over the current list; and for an
incoming entry with no later same-key entry in the batch, the merged
list's first index for that key holds exactly that entry — so within a
batch the later duplicate is the one present in the merged result. -/
theorem reconcile_upsert_spec (existing incoming : List Entry) :
    (∀ (l : List Entry) (n u : Nat) (e : Entry),
      (jsFindIndex (fun x => keyOf x == keyOf e) l = none →
        upsertStep (l, n, u) e = (l ++ [e], n + 1, u)) ∧
      (∀ idx, jsFindIndex (fun x => keyOf x == keyOf e) l = some idx →
        upsertStep (l, n, u) e = (l.set idx e, n, u + 1) ∧
        ∃ hlt : idx < l.length, (keyOf (l.get ⟨idx, hlt⟩) == keyOf e) = true ∧
          ∀ j (hj : j < l.length), j < idx →
            (keyOf (l.get ⟨j, hj⟩) == keyOf e) = false)) ∧
    reconcile existing incoming = incoming.foldl upsertStep (existing, 0, 0) ∧
    (∀ i (hi : i < incoming.length),
      (∀ j (hj : j < incoming.length), i < j →
        keyOf (incoming.get ⟨j, hj⟩) ≠ keyOf (incoming.get ⟨i, hi⟩)) →
      ∃ i0, ∃ h0 : i0 < (reconcile existing incoming).1.length,
        jsFindIndex (fun y => keyOf y == keyOf (incoming.get ⟨i, hi⟩))
            (reconcile existing incoming).1 = some i0 ∧
        (reconcile existing incoming).1.get ⟨i0, h0⟩ = incoming.get ⟨i, hi⟩ ∧
        incoming.get ⟨i, hi⟩ ∈ (reconcile existing incoming).1) := by
  refine ⟨?_, rfl, ?_⟩
  · intro l n u e
    constructor
    · intro h
      exact upsertStep_none (l, n, u) e h
    · intro idx h
      refine ⟨upsertStep_some (l, n, u) e idx h, ?_⟩
      rcases (jsFindIndex_eq_some_iff _ _ _).mp h with ⟨hlt, hp, hleft⟩
      exact ⟨hlt, hp, hleft⟩
  · intro i hi hlater
    have hdecomp : incoming =
        incoming.take i ++ incoming.get ⟨i, hi⟩ :: incoming.drop (i + 1) := by
      conv_lhs => rw [← List.take_append_drop i incoming]
      rw [List.drop_eq_getElem_cons hi]
      rfl
    have hfold : reconcile existing incoming =
        (incoming.drop (i + 1)).foldl upsertStep
          (upsertStep ((incoming.take i).foldl upsertStep (existing, 0, 0))
            (incoming.get ⟨i, hi⟩)) := by
      unfold reconcile
      conv_lhs => rw [hdecomp]
      rw [List.foldl_append, List.foldl_cons]
    rcases upsertStep_findIndex_self
        ((incoming.take i).foldl upsertStep (existing, 0, 0))
        (incoming.get ⟨i, hi⟩) with ⟨j0, hj0, hfi, hx⟩
    have hdropkeys : ∀ e2 ∈ incoming.drop (i + 1),
        keyOf e2 ≠ keyOf (incoming.get ⟨i, hi⟩) := by
      intro e2 he2
      rcases List.mem_iff_getElem.mp he2 with ⟨m, hm, hme⟩
      have hmlen : i + 1 + m < incoming.length := by
        have := hm
        simp only [List.length_drop] at this
        omega
      have hval : e2 = incoming.get ⟨i + 1 + m, hmlen⟩ := by
        rw [← hme]
        simp only [List.get_eq_getElem]
        exact (List.getElem_drop incoming).symm ▸ rfl
      rw [hval]
      exact hlater (i + 1 + m) hmlen (by omega)
    rcases reconcileFold_findIndex_preserved (incoming.drop (i + 1))
        (upsertStep ((incoming.take i).foldl upsertStep (existing, 0, 0))
          (incoming.get ⟨i, hi⟩))
        (keyOf (incoming.get ⟨i, hi⟩)) (incoming.get ⟨i, hi⟩) j0 hj0 hfi hx
        hdropkeys with ⟨i1, h1, hfi1, hx1⟩
    rw [hfold]
    refine ⟨i1, h1, hfi1, hx1, ?_⟩
    have hm := List.get_mem
      ((incoming.drop (i + 1)).foldl upsertStep
        (upsertStep ((incoming.take i).foldl upsertStep (existing, 0, 0))
          (incoming.get ⟨i, hi⟩))).1 i1 h1
    rw [hx1] at hm
    exact hm

/-- Witness for `reconcile_upsert_spec`: the incoming `oil-001` entry
replaces the existing `OIL-001` entry and is the one found afterwards. -/
theorem reconcile_upsert_spec_witness :
    ∃ i0, ∃ h0 : i0 < (reconcile [sampleEntry] [entryLower]).1.length,
      jsFindIndex (fun y => keyOf y == keyOf ([entryLower].get ⟨0, Nat.zero_lt_one⟩))
          (reconcile [sampleEntry] [entryLower]).1 = some i0 ∧
      (reconcile [sampleEntry] [entryLower]).1.get ⟨i0, h0⟩ =
        [entryLower].get ⟨0, Nat.zero_lt_one⟩ ∧
      [entryLower].get ⟨0, Nat.zero_lt_one⟩ ∈ (reconcile [sampleEntry] [entryLower]).1 :=
  (reconcile_upsert_spec [sampleEntry] [entryLower]).2.2 0 Nat.zero_lt_one
    (fun j hj hij =>
      absurd hij (by simp only [List.length_singleton] at hj; omega))
